import Mathlib

/-!
Shallow embedding of `main.go` of the doubao-cli repository: the streaming
response consumer (`sendStreamRequest`), the turn controller (`executor`),
and their interaction with the conversation transcript and the loading
animation.

Conventions of the embedding:
* Go strings are Lean `String`s; the Go standard-library helpers
  `strings.HasPrefix`, `strings.TrimPrefix` and `strings.TrimSpace` are
  modelled over the underlying character list.
* `json.Unmarshal` into `StreamResponse` is an external library call; it is
  modelled as a parameter `unmarshal : String → Option StreamResponse`
  (`none` = Unmarshal returned a non-nil error, `some r` = success with `r`).
* The HTTP transaction is modelled by `StreamInput`: the outcome of
  `client.Do` (`transportErr`), the response status, the list of lines the
  scanner yields from the body, and the scanner error that would surface
  after the last line (`scanErr`).
* The interaction with the animation goroutine over the unbuffered
  `stopChan`/`doneChan` pair is modelled as an event trace: `Event.stop` is
  one completed stop/done rendezvous, `Event.emit s` is one `fmt.Print` of
  reply text.  The animation goroutine polls `stopChan` in a `select` with
  a `default` branch (main.go lines 72-83) and never parks as a receiver on
  the channel; a non-blocking send on an unbuffered channel completes only
  against a parked receiver, so the controller's post-request non-blocking
  send (main.go line 225) can never pair with it: `postRequestStop` always
  takes the `default` branch, and `wg.Wait()` (line 230) returns only when
  the consumer completed the in-stream rendezvous — otherwise the turn
  hangs forever (`ExecEffect.hung`).  `executorGo` embeds these faithful
  channel semantics; `executor` keeps the reconciliation the spec intends
  in section 4.4 (post-request stop works, failed turns roll back), and the
  two agree on the command, panic and successful-turn paths
  (`executorGo_ok_eq`).
* A Go runtime panic (index out of range) is modelled as an explicit
  `none` / `indexPanic` outcome.
-/

namespace Doubao

/-- `type Message struct { Role, Content string }` (main.go lines 27-30). -/
structure Message where
  role : String
  content : String
deriving DecidableEq, Repr

/-- `type Error struct { Code, Message string }` (main.go lines 47-50). -/
structure Error where
  code : String
  message : String
deriving DecidableEq, Repr

/-- `type StreamChoice struct { Delta Message; FinishReason string; Index int }`
(main.go lines 41-45). -/
structure StreamChoice where
  delta : Message
  finishReason : String
  index : Int
deriving DecidableEq, Repr

/-- `type StreamResponse struct { ID, Object string; Created int64;
Choices []StreamChoice; Error *Error }` (main.go lines 33-39). -/
structure StreamResponse where
  id : String
  object : String
  created : Int
  choices : List StreamChoice
  error : Option Error
deriving DecidableEq, Repr

/-- Go `strings.HasPrefix s pre`, modelled over the character list. -/
def hasPref (s pre : String) : Bool :=
  pre.data.isPrefixOf s.data

/-- Go `strings.TrimPrefix s pre`, modelled over the character list. -/
def trimPref (s pre : String) : String :=
  if hasPref s pre then String.mk (s.data.drop pre.data.length) else s

/-- Go `strings.TrimSpace`, modelled over the character list (the claims only
involve ASCII whitespace, where `Char.isWhitespace` and Go's Unicode
white-space class agree). -/
def trimSpace (s : String) : String :=
  String.mk (((s.data.dropWhile Char.isWhitespace).reverse.dropWhile
      Char.isWhitespace).reverse)

/-- One observable interaction of a turn with the animation goroutine:
`stop` is a completed `stopChan <- true; <-doneChan` rendezvous, `emit s` is
`fmt.Print` of a piece of reply text. -/
inductive Event where
  | stop : Event
  | emit : String → Event
deriving DecidableEq, Repr

/-- State of the scan loop of `sendStreamRequest` when it terminates without
panicking: accumulated `fullContent`, the `firstContent` flag, whether the
loop ended via the `[DONE]` break (as opposed to the scanner being
exhausted), and the animation/output event trace. -/
structure LoopResult where
  fullContent : String
  firstContent : Bool
  sawDone : Bool
  events : List Event
deriving DecidableEq, Repr

/-- The scan loop of `sendStreamRequest` (main.go lines 142-172), processing
the lines the scanner yields.  `none` models the Go runtime panic (index out
of range) raised by `streamResp.Choices[0]` on a chunk whose `choices` list
is empty. -/
def processLines (unmarshal : String → Option StreamResponse) :
    List String → String → Bool → List Event → Option LoopResult
  | [], fullContent, firstContent, evs =>
      some ⟨fullContent, firstContent, false, evs⟩
  | line :: rest, fullContent, firstContent, evs =>
      if line = "" || hasPref line ": " then
        processLines unmarshal rest fullContent firstContent evs
      else if hasPref line "data: " then
        let payload := trimPref line "data: "
        if payload = "[DONE]" then
          some ⟨fullContent, firstContent, true, evs⟩
        else
          match unmarshal payload with
          | none => processLines unmarshal rest fullContent firstContent evs
          | some streamResp =>
            match streamResp.choices with
            | [] => none
            | choice :: _ =>
              let content := choice.delta.content
              if content ≠ "" then
                if firstContent then
                  processLines unmarshal rest (fullContent ++ content) false
                    (evs ++ [Event.stop, Event.emit content])
                else
                  processLines unmarshal rest (fullContent ++ content) false
                    (evs ++ [Event.emit content])
              else
                processLines unmarshal rest fullContent firstContent evs
      else
        processLines unmarshal rest fullContent firstContent evs

/-- Outcome of `sendStreamRequest`: the `(string, error)` return value, with
the distinct error paths kept apart, plus the panic outcome. -/
inductive ReqResult where
  | transportError : String → ReqResult
  | statusError : Nat → ReqResult
  | scanError : String → ReqResult
  | emptyAnswer : ReqResult
  | ok : String → ReqResult
  | indexPanic : ReqResult
deriving DecidableEq, Repr

/-- The externally determined parts of one HTTP streaming transaction:
outcome of `client.Do`, response status code, the lines the scanner yields
from the body, and the scanner error surfacing after the last line. -/
structure StreamInput where
  transportErr : Option String
  status : Nat
  lines : List String
  scanErr : Option String
deriving DecidableEq, Repr

/-- `sendStreamRequest` (main.go lines 88-183), from the `client.Do` call on:
transport failure, status check, scan loop, scanner-error check, and the
empty-answer check.  `scanner.Err()` is only non-nil when the loop actually
ran the scanner dry (it is nil after a `break` on `[DONE]`).  Returns the
result together with the animation/output event trace (empty on the panic
path: the process dies there). -/
def sendStreamRequest (unmarshal : String → Option StreamResponse)
    (inp : StreamInput) : ReqResult × List Event :=
  match inp.transportErr with
  | some e => (ReqResult.transportError e, [])
  | none =>
    if inp.status ≠ 200 then
      (ReqResult.statusError inp.status, [])
    else
      match processLines unmarshal inp.lines "" true [] with
      | none => (ReqResult.indexPanic, [])
      | some r =>
        match inp.scanErr, r.sawDone with
        | some e, false => (ReqResult.scanError e, r.events)
        | _, _ =>
          if r.fullContent = "" then (ReqResult.emptyAnswer, r.events)
          else (ReqResult.ok r.fullContent, r.events)

/-- What one `executor` call did, beyond mutating the transcript:
`exit0` is `os.Exit(0)`, `cleared` the clear command, `emptyInput` the
empty-input reprompt, `turn r` a completed request with outcome `r`,
`panicked` a request that died in the index-out-of-range panic, and `hung`
a turn stuck forever at `wg.Wait()` (main.go line 230) with the animation
still looping. -/
inductive ExecEffect where
  | exit0 : ExecEffect
  | cleared : ExecEffect
  | emptyInput : ExecEffect
  | turn : ReqResult → ExecEffect
  | panicked : ExecEffect
  | hung : ExecEffect
deriving DecidableEq, Repr

/-- The post-request `select { case stopChan <- true: <-doneChan default: }`
of `executor` (main.go lines 224-229) as section 4.2/4.4 of the spec intend
it: the rendezvous completes exactly when the animation goroutine is still
running (no stop was sent during the request), and is a silent no-op
otherwise.  The program's actual semantics differ — see `postRequestStop`:
the non-blocking send can never pair with the polling receiver, so the
intended completion never happens.  This spec-side definition is kept as
the reference the faithful semantics is compared against. -/
def execStop (evs : List Event) : List Event :=
  if Event.stop ∈ evs then evs else evs ++ [Event.stop]

/-- `executor` (main.go lines 186-244) acting on the transcript
`conversationHistory`, under the spec's intended reconciliation (section
4.4): the post-request stop works (`execStop`), so a failed turn prints the
error and rolls the provisional user message back.  On the command, panic
and successful-turn paths this coincides with the faithful `executorGo`
(`executorGo_ok_eq`); on failures without an in-stream stop the real
program instead hangs (see `executorGo`).  Returns the effect, the new
transcript, and the animation/output event trace of the turn. -/
def executor (hist : List Message) (rawIn : String)
    (unmarshal : String → Option StreamResponse) (req : StreamInput) :
    ExecEffect × List Message × List Event :=
  let inp := trimSpace rawIn
  if inp = "q" ∨ inp = "quit" then
    (ExecEffect.exit0, hist, [])
  else if inp = "clear" then
    (ExecEffect.cleared, [], [])
  else if inp = "" then
    (ExecEffect.emptyInput, hist, [])
  else
    let hist1 := hist ++ [⟨"user", inp⟩]
    match sendStreamRequest unmarshal req with
    | (ReqResult.indexPanic, evs) => (ExecEffect.panicked, hist1, evs)
    | (ReqResult.ok fullContent, evs) =>
        (ExecEffect.turn (ReqResult.ok fullContent),
          hist1 ++ [⟨"assistant", fullContent⟩], execStop evs)
    | (res, evs) =>
        (ExecEffect.turn res, hist1.dropLast, execStop evs)

/-- Whether a receiver is parked on `stopChan` when the post-request
`select` runs: the animation goroutine polls the channel in a `select` with
a `default` branch (main.go lines 72-83) and sleeps between polls, so it
never parks on the channel — neither while running nor after exiting. -/
def stopReceiverParked : Bool :=
  false

/-- The post-request `select { case stopChan <- true: <-doneChan default: }`
(main.go lines 224-229) under Go channel semantics: a non-blocking send on
an unbuffered channel completes only against a parked receiver, and the
polling animation goroutine never parks, so the `default` branch is taken
always — the stop rendezvous never completes here, and (being a `select`
with a `default` branch) the statement itself never blocks. -/
def postRequestStop (evs : List Event) : List Event :=
  if stopReceiverParked then evs ++ [Event.stop] else evs

/-- `executor` (main.go lines 186-244) under faithful Go channel semantics.
After the request, the post-request stop is the dead-code no-op
`postRequestStop`; `wg.Wait()` (line 230) returns only if the animation
goroutine called `wg.Done()`, which requires it to have received a stop —
possible only through the consumer's in-stream blocking send (line 164).
If no stop happened during the request, the turn hangs forever at
`wg.Wait()` (`ExecEffect.hung`): neither the error print (line 236), the
rollback (line 237) nor the assistant append (line 242) is reached, and the
provisional user message stays in the transcript. -/
def executorGo (hist : List Message) (rawIn : String)
    (unmarshal : String → Option StreamResponse) (req : StreamInput) :
    ExecEffect × List Message × List Event :=
  let inp := trimSpace rawIn
  if inp = "q" ∨ inp = "quit" then
    (ExecEffect.exit0, hist, [])
  else if inp = "clear" then
    (ExecEffect.cleared, [], [])
  else if inp = "" then
    (ExecEffect.emptyInput, hist, [])
  else
    let hist1 := hist ++ [⟨"user", inp⟩]
    match sendStreamRequest unmarshal req with
    | (ReqResult.indexPanic, evs) => (ExecEffect.panicked, hist1, evs)
    | (res, evs) =>
        let evs1 := postRequestStop evs
        if Event.stop ∈ evs1 then
          match res with
          | ReqResult.ok fullContent =>
              (ExecEffect.turn (ReqResult.ok fullContent),
                hist1 ++ [⟨"assistant", fullContent⟩], evs1)
          | _ => (ExecEffect.turn res, hist1.dropLast, evs1)
        else
          (ExecEffect.hung, hist1, evs1)

/-- Trimmed input text that starts a conversational turn: not a reserved
command and not empty (main.go lines 190-206 fall through to the request). -/
def isTurnText (s : String) : Bool :=
  !(s == "q" || s == "quit" || s == "clear" || s == "")

/-- The error returns of `sendStreamRequest` (a Go `error` value handed back
to `executor`); the panic is not a return and `ok` is not an error. -/
def isFailureRes : ReqResult → Bool
  | ReqResult.transportError _ => true
  | ReqResult.statusError _ => true
  | ReqResult.scanError _ => true
  | ReqResult.emptyAnswer => true
  | ReqResult.ok _ => false
  | ReqResult.indexPanic => false

/-- Whether an event is a reply-text emission. -/
def isEmit : Event → Bool
  | Event.emit _ => true
  | Event.stop => false

/-- The well-formed shape of a consumer event trace: either nothing happened,
or a single stop rendezvous happened first, followed only by reply-text
emissions. -/
def consumerTraceOk : List Event → Bool
  | [] => true
  | Event.stop :: rest => rest.all isEmit
  | Event.emit _ :: _ => false

/-- The transcript ends in a completed `(user, assistant)` pair. -/
def endsInPair (l : List Message) : Bool :=
  match l.reverse with
  | a :: u :: _ => u.role == "user" && a.role == "assistant"
  | _ => false

/-- The `StreamResponse` with its in-stream error field dropped. -/
def eraseErr (r : StreamResponse) : StreamResponse :=
  { r with error := none }

/-- Reply text as the specification words it: the in-order concatenation of
the non-empty first-choice deltas of the parseable data frames seen before
the terminator; blank lines, comment frames, unparsable payloads and empty
deltas contribute nothing. -/
def specReplyText (unmarshal : String → Option StreamResponse) :
    List String → String
  | [] => ""
  | line :: rest =>
    if line = "" || hasPref line ": " then specReplyText unmarshal rest
    else if hasPref line "data: " then
      let payload := trimPref line "data: "
      if payload = "[DONE]" then ""
      else
        match unmarshal payload with
        | none => specReplyText unmarshal rest
        | some streamResp =>
          match streamResp.choices with
          | [] => specReplyText unmarshal rest
          | choice :: _ =>
            if choice.delta.content = "" then specReplyText unmarshal rest
            else choice.delta.content ++ specReplyText unmarshal rest
    else specReplyText unmarshal rest

/-- One interactive turn as fed to `executor`: the raw input line and the
externally determined outcome of the HTTP transaction it triggers. -/
structure TurnInput where
  rawIn : String
  req : StreamInput

/-- Iterating `executor` over a sequence of input lines, tracking the
transcript. -/
def runTurns (unmarshal : String → Option StreamResponse) :
    List Message → List TurnInput → List Message
  | hist, [] => hist
  | hist, t :: ts =>
      runTurns unmarshal (executor hist t.rawIn unmarshal t.req).2.1 ts

/-- A turn that is a conversational turn and whose request succeeds. -/
def succeedsWith (unmarshal : String → Option StreamResponse)
    (t : TurnInput) : Bool :=
  isTurnText (trimSpace t.rawIn) &&
    match (sendStreamRequest unmarshal t.req).1 with
    | ReqResult.ok _ => true
    | _ => false

/-! ## Helper lemmas -/

theorem isTurnText_iff {s : String} :
    isTurnText s = true ↔ s ≠ "q" ∧ s ≠ "quit" ∧ s ≠ "clear" ∧ s ≠ "" := by
  simp [isTurnText, not_or, and_assoc]

/-- On a conversational input whose request succeeds, `executor` appends the
provisional user message and then the assistant message. -/
theorem executor_ok_eq (hist : List Message) (rawIn : String)
    (unmarshal : String → Option StreamResponse) (req : StreamInput)
    (c : String) (evs : List Event)
    (ht : isTurnText (trimSpace rawIn) = true)
    (hs : sendStreamRequest unmarshal req = (ReqResult.ok c, evs)) :
    executor hist rawIn unmarshal req =
      (ExecEffect.turn (ReqResult.ok c),
        hist ++ [⟨"user", trimSpace rawIn⟩, ⟨"assistant", c⟩], execStop evs) := by
  obtain ⟨h1, h2, h3, h4⟩ := isTurnText_iff.mp ht
  simp only [executor, if_neg (not_or.mpr ⟨h1, h2⟩), if_neg h3, if_neg h4, hs]
  simp

/-- On a conversational input whose request returns without a completed
in-stream stop rendezvous (and without panicking), the real turn hangs
forever at `wg.Wait()`: the provisional user message stays appended and
neither rollback nor assistant append is reached. -/
theorem executorGo_hangs (hist : List Message) (rawIn : String)
    (unmarshal : String → Option StreamResponse) (req : StreamInput)
    (res : ReqResult) (evs : List Event)
    (ht : isTurnText (trimSpace rawIn) = true)
    (hs : sendStreamRequest unmarshal req = (res, evs))
    (hnp : res ≠ ReqResult.indexPanic)
    (hns : Event.stop ∉ evs) :
    executorGo hist rawIn unmarshal req =
      (ExecEffect.hung, hist ++ [⟨"user", trimSpace rawIn⟩], evs) := by
  obtain ⟨h1, h2, h3, h4⟩ := isTurnText_iff.mp ht
  simp only [executorGo, if_neg (not_or.mpr ⟨h1, h2⟩), if_neg h3, if_neg h4,
    hs]
  have hpost : postRequestStop evs = evs := by
    simp [postRequestStop, stopReceiverParked]
  cases res <;>
    first
      | exact absurd rfl hnp
      | (simp only []; rw [hpost, if_neg hns])

/-! ## Concrete fixtures used by the witness theorems -/

/-- A concrete unmarshal function for witnesses: a few recognizable payloads
decode to chunks, everything else fails to parse. -/
def uW : String → Option StreamResponse
  | "HI" => some ⟨"c1", "chat.completion.chunk", 0, [⟨⟨"assistant", "Hi"⟩, "", 0⟩], none⟩
  | "A" => some ⟨"c2", "chat.completion.chunk", 0, [⟨⟨"assistant", "A"⟩, "", 0⟩], none⟩
  | "E" => some ⟨"c3", "chat.completion.chunk", 0, [⟨⟨"assistant", ""⟩, "", 0⟩], none⟩
  | "B" => some ⟨"c4", "chat.completion.chunk", 0, [⟨⟨"assistant", "B"⟩, "", 0⟩], none⟩
  | _ => none

/-- A transaction that delivers one "Hi" delta and then the terminator. -/
def reqHi : StreamInput :=
  ⟨none, 200, ["data: HI", "data: [DONE]"], none⟩

/-- A transaction that dies with HTTP status 500. -/
def req500 : StreamInput :=
  ⟨none, 500, [], none⟩

/-! ## Claims -/

/-- **C2** (the code contradicts the claim; the spec states the intent):
for every failure class the claim enumerates (transport, timeout,
non-success status, empty answer) no in-stream stop was ever sent, so under
faithful channel semantics the turn hangs forever at `wg.Wait()` with the
provisional user message still appended — the rollback at main.go line 237
is unreachable.  First two conjuncts: a 500-status turn and an empty-answer
turn both hang with the user message retained.  Third conjunct: the
spec-intended reconciliation (`executor`) would have restored the
transcript exactly — the divergence the claim describes. -/
theorem C2_failed_turn_hangs :
    executorGo [⟨"user", "a"⟩, ⟨"assistant", "b"⟩] "hello" uW req500 =
      (ExecEffect.hung,
        [⟨"user", "a"⟩, ⟨"assistant", "b"⟩, ⟨"user", "hello"⟩], []) ∧
    executorGo [] "hi" uW ⟨none, 200, ["data: [DONE]"], none⟩ =
      (ExecEffect.hung, [⟨"user", "hi"⟩], []) ∧
    executor [⟨"user", "a"⟩, ⟨"assistant", "b"⟩] "hello" uW req500 =
      (ExecEffect.turn (ReqResult.statusError 500),
        [⟨"user", "a"⟩, ⟨"assistant", "b"⟩], [Event.stop]) := by
  decide

/-- **C7.** On a non-success HTTP status the consumer fails immediately with
an error carrying the status code: the result does not depend on the body
(any `lines'` give the same outcome), there is no retry (the single
evaluation is the only attempt), and no assistant entry is ever appended —
under faithful channel semantics the turn then hangs at `wg.Wait()` with
only the provisional user message added, so in particular no assistant
message ever enters the transcript. -/
theorem C7_bad_status (unmarshal : String → Option StreamResponse)
    (inp : StreamInput) (hist : List Message) (rawIn : String)
    (h1 : inp.transportErr = none) (h2 : inp.status ≠ 200) :
    sendStreamRequest unmarshal inp = (ReqResult.statusError inp.status, []) ∧
    (∀ lines' : List String,
      sendStreamRequest unmarshal { inp with lines := lines' } =
        (ReqResult.statusError inp.status, [])) ∧
    (isTurnText (trimSpace rawIn) = true →
      executorGo hist rawIn unmarshal inp =
        (ExecEffect.hung, hist ++ [⟨"user", trimSpace rawIn⟩], [])) := by
  obtain ⟨te, st, lines, se⟩ := inp
  simp only [StreamInput.transportErr] at h1
  simp only [StreamInput.status] at h2
  subst h1
  have hmain : ∀ lines' : List String,
      sendStreamRequest unmarshal ⟨none, st, lines', se⟩ =
        (ReqResult.statusError st, []) := by
    intro lines'
    simp only [sendStreamRequest]
    rw [if_pos h2]
  refine ⟨hmain lines, hmain, ?_⟩
  intro ht
  exact executorGo_hangs hist rawIn unmarshal ⟨none, st, lines, se⟩
    (ReqResult.statusError st) [] ht (hmain lines) (by simp) (by simp)

/-- Witness for C7: a 500 response yields a status-code error, and the turn
hangs with only the provisional user message — no assistant entry. -/
theorem C7_bad_status_witness :
    sendStreamRequest uW req500 = (ReqResult.statusError 500, []) ∧
    executorGo [] "hello" uW req500 =
      (ExecEffect.hung, [⟨"user", "hello"⟩], []) := by
  have h := C7_bad_status uW req500 [] "hello" rfl (by decide)
  refine ⟨h.1, ?_⟩
  have h3 := h.2.2 (by decide)
  rw [h3]
  have ht : trimSpace "hello" = "hello" := by decide
  rw [ht]
  rfl

/-- **C8.** Interactive command dispatch: `q` and `quit` terminate the
process with exit code 0 (`os.Exit(0)`, modelled as `ExecEffect.exit0`,
transcript untouched), `clear` resets the transcript to the empty sequence
whatever it held, empty input changes nothing, starts no animation and
issues no request (empty event trace), and every other non-empty input
starts a conversational turn (a request is issued: the effect is `turn` or
the panic of that request). -/
theorem C8_command_dispatch (hist : List Message)
    (unmarshal : String → Option StreamResponse) (req : StreamInput)
    (rawIn : String) :
    executor hist "q" unmarshal req = (ExecEffect.exit0, hist, []) ∧
    executor hist "quit" unmarshal req = (ExecEffect.exit0, hist, []) ∧
    executor hist "clear" unmarshal req = (ExecEffect.cleared, [], []) ∧
    executor hist "" unmarshal req = (ExecEffect.emptyInput, hist, []) ∧
    (isTurnText (trimSpace rawIn) = true →
      (executor hist rawIn unmarshal req).1 = ExecEffect.panicked ∨
        ∃ res, (executor hist rawIn unmarshal req).1 = ExecEffect.turn res) := by
  have hq : trimSpace "q" = "q" := by decide
  have hquit : trimSpace "quit" = "quit" := by decide
  have hclear : trimSpace "clear" = "clear" := by decide
  have hempty : trimSpace "" = "" := by decide
  refine ⟨?_, ?_, ?_, ?_, ?_⟩
  · simp [executor, hq]
  · simp [executor, hquit]
  · simp [executor, hclear]
  · simp [executor, hempty]
  · intro ht
    obtain ⟨h1, h2, h3, h4⟩ := isTurnText_iff.mp ht
    rcases hsr : sendStreamRequest unmarshal req with ⟨res, evs⟩
    cases res <;>
      simp [executor, if_neg (not_or.mpr ⟨h1, h2⟩), if_neg h3, if_neg h4, hsr]

/-- Witness for C8: the commands on a concrete transcript, and a concrete
conversational input that issues a request. -/
theorem C8_command_dispatch_witness :
    executor [⟨"user", "x"⟩] "q" uW reqHi =
      (ExecEffect.exit0, [⟨"user", "x"⟩], []) ∧
    executor [⟨"user", "x"⟩] "clear" uW reqHi = (ExecEffect.cleared, [], []) ∧
    ((executor [] "hello" uW reqHi).1 = ExecEffect.panicked ∨
      ∃ res, (executor [] "hello" uW reqHi).1 = ExecEffect.turn res) := by
  have h := C8_command_dispatch [⟨"user", "x"⟩] uW reqHi "hello"
  have h0 := C8_command_dispatch ([] : List Message) uW reqHi "hello"
  exact ⟨h.1, h.2.2.1, h0.2.2.2.2 (by decide)⟩

/-- **C9.** Input is trimmed of leading and trailing whitespace before
command dispatch and validation: whitespace-only input is handled as empty
input, commands are recognized from the trimmed text (so `"  q  "` or
`" clear "` work), and the user message appended on a conversational turn
carries the trimmed text. -/
theorem C9_input_trimming (hist : List Message)
    (unmarshal : String → Option StreamResponse) (req : StreamInput)
    (rawIn : String) :
    (trimSpace rawIn = "" →
      executor hist rawIn unmarshal req = (ExecEffect.emptyInput, hist, [])) ∧
    (trimSpace rawIn = "q" ∨ trimSpace rawIn = "quit" →
      executor hist rawIn unmarshal req = (ExecEffect.exit0, hist, [])) ∧
    (trimSpace rawIn = "clear" →
      executor hist rawIn unmarshal req = (ExecEffect.cleared, [], [])) ∧
    (∀ c evs, isTurnText (trimSpace rawIn) = true →
      sendStreamRequest unmarshal req = (ReqResult.ok c, evs) →
      executor hist rawIn unmarshal req =
        (ExecEffect.turn (ReqResult.ok c),
          hist ++ [⟨"user", trimSpace rawIn⟩, ⟨"assistant", c⟩],
          execStop evs)) := by
  refine ⟨?_, ?_, ?_, ?_⟩
  · intro h; simp [executor, h]
  · rintro (h | h) <;> simp [executor, h]
  · intro h; simp [executor, h]
  · intro c evs ht hs
    exact executor_ok_eq hist rawIn unmarshal req c evs ht hs

/-- Witness for C9: whitespace-only input, padded commands, and a padded
conversational input whose trimmed text is what the transcript records. -/
theorem C9_input_trimming_witness :
    executor [⟨"user", "x"⟩] "   " uW reqHi =
      (ExecEffect.emptyInput, [⟨"user", "x"⟩], []) ∧
    executor [⟨"user", "x"⟩] "  q  " uW reqHi =
      (ExecEffect.exit0, [⟨"user", "x"⟩], []) ∧
    executor [⟨"user", "x"⟩] " clear " uW reqHi = (ExecEffect.cleared, [], []) ∧
    executor [] "  hello " uW reqHi =
      (ExecEffect.turn (ReqResult.ok "Hi"),
        [⟨"user", "hello"⟩, ⟨"assistant", "Hi"⟩],
        execStop [Event.stop, Event.emit "Hi"]) := by
  refine ⟨(C9_input_trimming [⟨"user", "x"⟩] uW reqHi "   ").1 (by decide),
    (C9_input_trimming [⟨"user", "x"⟩] uW reqHi "  q  ").2.1 (Or.inl (by decide)),
    (C9_input_trimming [⟨"user", "x"⟩] uW reqHi " clear ").2.2.1 (by decide), ?_⟩
  have h := (C9_input_trimming [] uW reqHi "  hello ").2.2.2 "Hi"
    [Event.stop, Event.emit "Hi"] (by decide) (by decide)
  rw [h]
  have : trimSpace "  hello " = "hello" := by decide
  rw [this]
  rfl

/-- A concrete unmarshal under which one payload decodes to a chunk whose
`choices` list is empty (as e.g. the JSON text `\x7b"choices":[]\x7d` does
under `json.Unmarshal`). -/
def uEmptyChoices : String → Option StreamResponse
  | "EMPTYCHOICES" => some ⟨"c0", "chat.completion.chunk", 0, [], none⟩
  | _ => none

/-- **C1** (the code contradicts the claim; the spec states the intent): on
a 200 stream holding one parseable data frame whose `choices` list is empty,
`sendStreamRequest` evaluates `streamResp.Choices[0]` on an empty slice and
dies in the Go index-out-of-range runtime panic instead of treating the
chunk as contributing no delta; the turn controller never regains control. -/
theorem C1_empty_choices_panics :
    sendStreamRequest uEmptyChoices
        ⟨none, 200, ["data: EMPTYCHOICES", "data: [DONE]"], none⟩ =
      (ReqResult.indexPanic, []) ∧
    (executor [] "hello" uEmptyChoices
        ⟨none, 200, ["data: EMPTYCHOICES", "data: [DONE]"], none⟩).1 =
      ExecEffect.panicked := by decide

/-- **C4.** If the scan loop terminates normally (no panic, no scanner
error) with zero accumulated reply text, `sendStreamRequest` returns the
"empty answer" failure rather than success, even though the HTTP
transaction succeeded. -/
theorem C4_empty_answer (unmarshal : String → Option StreamResponse)
    (inp : StreamInput) (r : LoopResult)
    (h1 : inp.transportErr = none) (h2 : inp.status = 200)
    (h3 : inp.scanErr = none)
    (hp : processLines unmarshal inp.lines "" true [] = some r)
    (hc : r.fullContent = "") :
    (sendStreamRequest unmarshal inp).1 = ReqResult.emptyAnswer := by
  obtain ⟨te, st, lines, se⟩ := inp
  simp only [StreamInput.transportErr] at h1
  simp only [StreamInput.status] at h2
  simp only [StreamInput.scanErr] at h3
  simp only [StreamInput.lines] at hp
  subst h1 h2 h3
  simp only [sendStreamRequest, hp]
  rw [if_neg (by simp)]
  cases hd : r.sawDone <;> simp [hc]

/-- Witness for C4: a stream of a blank line, a comment frame and an
unparsable data frame followed by the terminator fails with the empty-answer
error. -/
theorem C4_empty_answer_witness :
    (sendStreamRequest uW
        ⟨none, 200, ["", ": keepalive", "data: junk", "data: [DONE]"], none⟩).1 =
      ReqResult.emptyAnswer :=
  C4_empty_answer uW
    ⟨none, 200, ["", ": keepalive", "data: junk", "data: [DONE]"], none⟩
    ⟨"", true, true, []⟩ rfl rfl rfl (by decide) rfl

/-- A data frame is neither the blank line nor a comment frame: the two
skip conditions of the scan loop are mutually exclusive with the data
marker. -/
theorem hasPref_data_not_blank {line : String}
    (h : hasPref line "data: " = true) :
    (line = "" || hasPref line ": " : Bool) = false := by
  unfold hasPref at h ⊢
  have hdata : ("data: " : String).data = ['d', 'a', 't', 'a', ':', ' '] := rfl
  have hcol : (": " : String).data = [':', ' '] := rfl
  rw [hdata] at h
  rw [hcol]
  rcases hl : line.data with _ | ⟨c, cs⟩
  · rw [hl] at h
    simp [List.isPrefixOf] at h
  · rw [hl] at h
    simp only [List.isPrefixOf, Bool.and_eq_true, beq_iff_eq] at h
    obtain ⟨hc, -⟩ := h
    subst hc
    have hne : ¬line = "" := by
      intro he
      rw [he] at hl
      exact List.noConfusion hl
    have hdd : (':' == 'd') = false := by decide
    simp [List.isPrefixOf, hne, hdd]

/-- The accumulated `fullContent` of a normally terminating scan loop is the
starting accumulator followed by the spec-side concatenation of the deltas
of the remaining lines. -/
theorem processLines_content (unmarshal : String → Option StreamResponse) :
    ∀ (lines : List String) (acc : String) (first : Bool) (evs : List Event)
      (r : LoopResult),
      processLines unmarshal lines acc first evs = some r →
      r.fullContent = acc ++ specReplyText unmarshal lines := by
  intro lines
  induction lines with
  | nil =>
      intro acc first evs r hp
      simp only [processLines, Option.some.injEq] at hp
      rw [← hp]
      simp [specReplyText, String.append_empty]
  | cons line rest ih =>
      intro acc first evs r hp
      simp only [processLines] at hp
      simp only [specReplyText]
      by_cases hb : (line = "" || hasPref line ": " : Bool) = true
      · rw [if_pos hb] at hp
        rw [if_pos hb]
        exact ih acc first evs r hp
      · rw [if_neg hb] at hp
        rw [if_neg hb]
        by_cases hd : hasPref line "data: " = true
        · rw [if_pos hd] at hp
          rw [if_pos hd]
          by_cases hdone : trimPref line "data: " = "[DONE]"
          · rw [if_pos hdone] at hp
            rw [if_pos hdone]
            simp only [Option.some.injEq] at hp
            rw [← hp]
            simp [String.append_empty]
          · rw [if_neg hdone] at hp
            rw [if_neg hdone]
            rcases hm : unmarshal (trimPref line "data: ") with _ | streamResp
            · rw [hm] at hp
              simp only [] at hp
              exact ih acc first evs r hp
            · rw [hm] at hp
              simp only [] at hp
              rcases hch : streamResp.choices with _ | ⟨choice, rest'⟩
              · rw [hch] at hp
                simp only [] at hp
                exact Option.noConfusion hp
              · rw [hch] at hp
                simp only [] at hp
                simp only []
                rw [hch]
                simp only []
                by_cases hc : choice.delta.content = ""
                · rw [if_neg (fun hne => hne hc)] at hp
                  rw [if_pos hc]
                  exact ih acc first evs r hp
                · rw [if_pos hc] at hp
                  rw [if_neg hc]
                  cases first with
                  | true =>
                      rw [if_pos rfl] at hp
                      have h := ih (acc ++ choice.delta.content) false
                        (evs ++ [Event.stop, Event.emit choice.delta.content]) r hp
                      rw [h, String.append_assoc]
                  | false =>
                      rw [if_neg (by simp)] at hp
                      have h := ih (acc ++ choice.delta.content) false
                        (evs ++ [Event.emit choice.delta.content]) r hp
                      rw [h, String.append_assoc]
        · rw [if_neg hd] at hp
          rw [if_neg hd]
          exact ih acc first evs r hp

/-- **C5.** On success the reply text is exactly the in-order concatenation
of the non-empty first-choice deltas of the parseable data frames seen
before the terminator (`specReplyText` is written from the spec's wording);
and a data frame whose payload fails to parse is silently skipped: at any
loop state it leaves the scan unchanged, so it never aborts the request. -/
theorem C5_reply_text (unmarshal : String → Option StreamResponse)
    (inp : StreamInput) (s : String)
    (hok : (sendStreamRequest unmarshal inp).1 = ReqResult.ok s) :
    s = specReplyText unmarshal inp.lines ∧
    (∀ (line : String) (rest : List String) (acc : String) (first : Bool)
        (evs : List Event),
      hasPref line "data: " = true →
      trimPref line "data: " ≠ "[DONE]" →
      unmarshal (trimPref line "data: ") = none →
      processLines unmarshal (line :: rest) acc first evs =
        processLines unmarshal rest acc first evs) := by
  constructor
  · obtain ⟨te, st, lines, se⟩ := inp
    rcases te with _ | e
    · simp only [sendStreamRequest] at hok ⊢
      by_cases hst : st ≠ 200
      · rw [if_pos hst] at hok
        exact absurd hok (by simp)
      · rw [if_neg hst] at hok
        rcases hp : processLines unmarshal lines "" true [] with _ | r
        · rw [hp] at hok
          exact absurd hok (by simp)
        · rw [hp] at hok
          have hcontent := processLines_content unmarshal lines "" true [] r hp
          rcases se with _ | e2
          · simp only [] at hok
            by_cases hfc : r.fullContent = ""
            · rw [if_pos hfc] at hok
              exact absurd hok (by simp)
            · rw [if_neg hfc] at hok
              simp only [ReqResult.ok.injEq] at hok
              rw [← hok, hcontent]
              simp
          · simp only [] at hok
            cases hsd : r.sawDone
            · rw [hsd] at hok
              simp only [] at hok
              exact absurd hok (by simp)
            · rw [hsd] at hok
              simp only [] at hok
              by_cases hfc : r.fullContent = ""
              · rw [if_pos hfc] at hok
                exact absurd hok (by simp)
              · rw [if_neg hfc] at hok
                simp only [ReqResult.ok.injEq] at hok
                rw [← hok, hcontent]
                simp
    · simp only [sendStreamRequest] at hok
      exact absurd hok (by simp)
  · intro line rest acc first evs hd hdone hm
    simp only [processLines]
    rw [if_neg (by simp [hasPref_data_not_blank hd]), if_pos hd,
      if_neg hdone, hm]

/-- Witness for C5: deltas `"A"`, `""`, `"B"` with an interleaved unparsable
frame yield exactly `"AB"`, and the unparsable frame is a no-op for the
scan loop. -/
theorem C5_reply_text_witness :
    ("AB" : String) =
      specReplyText uW ["data: A", "data: E", "data: junk", "data: B",
        "data: [DONE]"] ∧
    processLines uW ["data: junk", "data: B"] "A" false
        [Event.stop, Event.emit "A"] =
      processLines uW ["data: B"] "A" false [Event.stop, Event.emit "A"] := by
  have h := C5_reply_text uW
    ⟨none, 200, ["data: A", "data: E", "data: junk", "data: B", "data: [DONE]"],
      none⟩ "AB" (by decide)
  exact ⟨h.1, h.2 "data: junk" ["data: B"] "A" false
    [Event.stop, Event.emit "A"] (by decide) (by decide) (by decide)⟩

/-- Appending one more emission keeps a (nonempty) consumer trace
well-formed. -/
theorem consumerTraceOk_append_emit {evs : List Event}
    (h : consumerTraceOk evs = true) (hne : evs ≠ []) (s : String) :
    consumerTraceOk (evs ++ [Event.emit s]) = true := by
  rcases evs with _ | ⟨e, rest⟩
  · exact absurd rfl hne
  · cases e with
    | stop =>
        simp only [consumerTraceOk] at h
        simp only [List.cons_append, consumerTraceOk, List.all_append, h,
          List.all_cons, List.all_nil, isEmit, Bool.and_self,
          Bool.true_and]
    | emit t => simp [consumerTraceOk] at h

/-- The scan loop preserves the well-formed trace shape: starting from an
empty trace (first delta not yet seen) or a trace of one stop followed by
emissions, it ends with a trace of that shape. -/
theorem processLines_traceOk (unmarshal : String → Option StreamResponse) :
    ∀ (lines : List String) (acc : String) (first : Bool) (evs : List Event)
      (r : LoopResult),
      (first = true → evs = []) →
      (first = false → consumerTraceOk evs = true ∧ evs ≠ []) →
      processLines unmarshal lines acc first evs = some r →
      consumerTraceOk r.events = true := by
  intro lines
  induction lines with
  | nil =>
      intro acc first evs r h1 h2 hp
      simp only [processLines, Option.some.injEq] at hp
      rw [← hp]
      cases first with
      | true => rw [h1 rfl]; rfl
      | false => exact (h2 rfl).1
  | cons line rest ih =>
      intro acc first evs r h1 h2 hp
      simp only [processLines] at hp
      by_cases hb : (line = "" || hasPref line ": " : Bool) = true
      · rw [if_pos hb] at hp
        exact ih acc first evs r h1 h2 hp
      · rw [if_neg hb] at hp
        by_cases hd : hasPref line "data: " = true
        · rw [if_pos hd] at hp
          by_cases hdone : trimPref line "data: " = "[DONE]"
          · rw [if_pos hdone] at hp
            simp only [Option.some.injEq] at hp
            rw [← hp]
            cases first with
            | true => rw [h1 rfl]; rfl
            | false => exact (h2 rfl).1
          · rw [if_neg hdone] at hp
            rcases hm : unmarshal (trimPref line "data: ") with _ | streamResp
            · rw [hm] at hp
              simp only [] at hp
              exact ih acc first evs r h1 h2 hp
            · rw [hm] at hp
              simp only [] at hp
              rcases hch : streamResp.choices with _ | ⟨choice, rest'⟩
              · rw [hch] at hp
                simp only [] at hp
                exact Option.noConfusion hp
              · rw [hch] at hp
                simp only [] at hp
                by_cases hc : choice.delta.content = ""
                · rw [if_neg (fun hne => hne hc)] at hp
                  exact ih acc first evs r h1 h2 hp
                · rw [if_pos hc] at hp
                  cases first with
                  | true =>
                      rw [if_pos rfl] at hp
                      rw [h1 rfl] at hp
                      exact ih (acc ++ choice.delta.content) false
                        ([] ++ [Event.stop, Event.emit choice.delta.content]) r
                        (fun hft => Bool.noConfusion hft)
                        (fun _ => ⟨by rfl, by simp⟩) hp
                  | false =>
                      rw [if_neg (by simp)] at hp
                      exact ih (acc ++ choice.delta.content) false
                        (evs ++ [Event.emit choice.delta.content]) r
                        (fun hft => Bool.noConfusion hft)
                        (fun _ => ⟨consumerTraceOk_append_emit (h2 rfl).1
                            (h2 rfl).2 choice.delta.content, by simp⟩) hp
        · rw [if_neg hd] at hp
          exact ih acc first evs r h1 h2 hp

/-- The event trace of every run of `sendStreamRequest` is well-formed:
empty, or one stop rendezvous followed only by emissions. -/
theorem sendStream_traceOk (unmarshal : String → Option StreamResponse)
    (inp : StreamInput) :
    consumerTraceOk (sendStreamRequest unmarshal inp).2 = true := by
  obtain ⟨te, st, lines, se⟩ := inp
  rcases te with _ | e
  · simp only [sendStreamRequest]
    by_cases hs : st ≠ 200
    · rw [if_pos hs]
      rfl
    · rw [if_neg hs]
      rcases hp : processLines unmarshal lines "" true [] with _ | r
      · rfl
      · have htr := processLines_traceOk unmarshal lines "" true [] r
          (fun _ => rfl) (fun hf => Bool.noConfusion hf) hp
        rcases se with _ | e2
        · simp only []
          by_cases hfc : r.fullContent = ""
          · rw [if_pos hfc]; exact htr
          · rw [if_neg hfc]; exact htr
        · simp only []
          cases hsd : r.sawDone
          · simp only []
            exact htr
          · simp only []
            by_cases hfc : r.fullContent = ""
            · rw [if_pos hfc]; exact htr
            · rw [if_neg hfc]; exact htr
  · rfl

/-- A list of emissions contains no stop event. -/
theorem count_stop_all_emit {l : List Event} (h : l.all isEmit = true) :
    l.count Event.stop = 0 := by
  rw [List.count_eq_zero]
  intro hm
  have := List.all_eq_true.mp h _ hm
  simp [isEmit] at this

/-- The scan loop clears `firstContent` exactly by completing the stop
rendezvous: once the flag is false a stop event is in the trace, the flag
never returns to true, and while it is still true the accumulator is
untouched. -/
theorem processLines_stop (unmarshal : String → Option StreamResponse) :
    ∀ (lines : List String) (acc : String) (first : Bool) (evs : List Event)
      (r : LoopResult),
      (first = true → evs = []) →
      (first = false → Event.stop ∈ evs) →
      processLines unmarshal lines acc first evs = some r →
      (r.firstContent = false → Event.stop ∈ r.events) ∧
      (first = false → r.firstContent = false) ∧
      (first = true → r.firstContent = true → r.fullContent = acc) := by
  intro lines
  induction lines with
  | nil =>
      intro acc first evs r h1 h2 hp
      simp only [processLines, Option.some.injEq] at hp
      rw [← hp]
      exact ⟨h2, fun hf => hf, fun _ _ => rfl⟩
  | cons line rest ih =>
      intro acc first evs r h1 h2 hp
      simp only [processLines] at hp
      by_cases hb : (line = "" || hasPref line ": " : Bool) = true
      · rw [if_pos hb] at hp
        exact ih acc first evs r h1 h2 hp
      · rw [if_neg hb] at hp
        by_cases hd : hasPref line "data: " = true
        · rw [if_pos hd] at hp
          by_cases hdone : trimPref line "data: " = "[DONE]"
          · rw [if_pos hdone] at hp
            simp only [Option.some.injEq] at hp
            rw [← hp]
            exact ⟨h2, fun hf => hf, fun _ _ => rfl⟩
          · rw [if_neg hdone] at hp
            rcases hm : unmarshal (trimPref line "data: ") with _ | streamResp
            · rw [hm] at hp
              simp only [] at hp
              exact ih acc first evs r h1 h2 hp
            · rw [hm] at hp
              simp only [] at hp
              rcases hch : streamResp.choices with _ | ⟨choice, rest'⟩
              · rw [hch] at hp
                simp only [] at hp
                exact Option.noConfusion hp
              · rw [hch] at hp
                simp only [] at hp
                by_cases hc : choice.delta.content = ""
                · rw [if_neg (fun hne => hne hc)] at hp
                  exact ih acc first evs r h1 h2 hp
                · rw [if_pos hc] at hp
                  cases first with
                  | true =>
                      rw [if_pos rfl] at hp
                      rw [h1 rfl] at hp
                      have hrec := ih (acc ++ choice.delta.content) false
                        ([] ++ [Event.stop, Event.emit choice.delta.content])
                        r (fun hft => Bool.noConfusion hft)
                        (fun _ => by simp) hp
                      refine ⟨hrec.1, fun hf => Bool.noConfusion hf,
                        fun _ hft => ?_⟩
                      exact absurd (hrec.2.1 rfl) (by simp [hft])
                  | false =>
                      rw [if_neg (by simp)] at hp
                      have hrec := ih (acc ++ choice.delta.content) false
                        (evs ++ [Event.emit choice.delta.content]) r
                        (fun hft => Bool.noConfusion hft)
                        (fun _ => List.mem_append_left _ (h2 rfl)) hp
                      exact ⟨hrec.1, fun _ => hrec.2.1 rfl,
                        fun hft => Bool.noConfusion hft⟩
        · rw [if_neg hd] at hp
          exact ih acc first evs r h1 h2 hp

/-- A successful request always completed the in-stream stop rendezvous:
`ok` means nonempty reply text, which required a first non-empty delta,
which sent the stop. -/
theorem sendStream_ok_stop (unmarshal : String → Option StreamResponse)
    (inp : StreamInput) (c : String) (evs : List Event)
    (hs : sendStreamRequest unmarshal inp = (ReqResult.ok c, evs)) :
    Event.stop ∈ evs := by
  obtain ⟨te, st, lines, se⟩ := inp
  rcases te with _ | e
  · simp only [sendStreamRequest] at hs
    by_cases hst : st ≠ 200
    · rw [if_pos hst] at hs
      exact absurd hs (by simp)
    · rw [if_neg hst] at hs
      rcases hp : processLines unmarshal lines "" true [] with _ | r
      · rw [hp] at hs
        exact absurd hs (by simp)
      · rw [hp] at hs
        have hinv := processLines_stop unmarshal lines "" true [] r
          (fun _ => rfl) (fun hf => Bool.noConfusion hf) hp
        have hkey : r.fullContent ≠ "" → r.events = evs → Event.stop ∈ evs := by
          intro hfc hevs
          rw [← hevs]
          refine hinv.1 ?_
          cases hf : r.firstContent
          · rfl
          · exact absurd (hinv.2.2 rfl hf) hfc
        rcases se with _ | e2
        · simp only [] at hs
          by_cases hfc : r.fullContent = ""
          · rw [if_pos hfc] at hs
            exact absurd hs (by simp)
          · rw [if_neg hfc] at hs
            exact hkey hfc (congrArg Prod.snd hs)
        · simp only [] at hs
          cases hsd : r.sawDone
          · rw [hsd] at hs
            simp only [] at hs
            exact absurd hs (by simp)
          · rw [hsd] at hs
            simp only [] at hs
            by_cases hfc : r.fullContent = ""
            · rw [if_pos hfc] at hs
              exact absurd hs (by simp)
            · rw [if_neg hfc] at hs
              exact hkey hfc (congrArg Prod.snd hs)
  · simp only [sendStreamRequest] at hs
    exact absurd hs (by simp)

/-- On every path the reviewer-relevant claims traverse — commands, empty
input, panic, and successful turns — the faithful `executorGo` agrees with
the spec-intended `executor`: a success implies the in-stream rendezvous
completed, so the post-request handshake is a genuine no-op either way. -/
theorem executorGo_ok_eq (hist : List Message) (rawIn : String)
    (unmarshal : String → Option StreamResponse) (req : StreamInput) :
    (¬isTurnText (trimSpace rawIn) = true →
      executorGo hist rawIn unmarshal req = executor hist rawIn unmarshal req) ∧
    (∀ c evs, sendStreamRequest unmarshal req = (ReqResult.ok c, evs) →
      executorGo hist rawIn unmarshal req =
        executor hist rawIn unmarshal req) := by
  constructor
  · intro hnt
    have hnt' : trimSpace rawIn = "q" ∨ trimSpace rawIn = "quit" ∨
        trimSpace rawIn = "clear" ∨ trimSpace rawIn = "" := by
      by_contra hcon
      push_neg at hcon
      exact hnt (isTurnText_iff.mpr
        ⟨hcon.1, hcon.2.1, hcon.2.2.1, hcon.2.2.2⟩)
    rcases hnt' with hc | hc | hc | hc <;> simp [executorGo, executor, hc]
  · intro c evs hs
    have hstop : Event.stop ∈ evs := sendStream_ok_stop unmarshal req c evs hs
    by_cases ht : isTurnText (trimSpace rawIn) = true
    · obtain ⟨h1, h2, h3, h4⟩ := isTurnText_iff.mp ht
      simp only [executorGo, executor, if_neg (not_or.mpr ⟨h1, h2⟩),
        if_neg h3, if_neg h4, hs]
      have hpost : postRequestStop evs = evs := by
        simp [postRequestStop, stopReceiverParked]
      simp only [hpost, if_pos hstop, execStop]
    · have hnt' : trimSpace rawIn = "q" ∨ trimSpace rawIn = "quit" ∨
          trimSpace rawIn = "clear" ∨ trimSpace rawIn = "" := by
        by_contra hcon
        push_neg at hcon
        exact ht (isTurnText_iff.mpr
          ⟨hcon.1, hcon.2.1, hcon.2.2.1, hcon.2.2.2⟩)
      rcases hnt' with hc | hc | hc | hc <;>
        simp [executorGo, executor, hc]

/-- **C6** (the code contradicts the claim; the spec states the intent):
the consumer side of the claim holds — every consumer trace is empty or one
stop, sent at the first non-empty delta, followed only by emissions
(conjunct 1) — and the controller's unconditional post-request stop request
never blocks, but only because it never does anything: the non-blocking
send can never pair with the polling animation goroutine, so it is the
`default` no-op on every turn (conjunct 2).  Consequently on a turn with no
non-empty delta nothing ever stops the animation, `wg.Wait()` never
returns, and the turn blocks forever (conjunct 3) — violating the claim's
guarantee that the stop protocol tolerates a redundant stop without
indefinite blocking. -/
theorem C6_stop_protocol_starves :
    (∀ (unmarshal : String → Option StreamResponse) (inp : StreamInput),
      consumerTraceOk (sendStreamRequest unmarshal inp).2 = true) ∧
    (∀ evs : List Event, postRequestStop evs = evs) ∧
    executorGo [] "hello" uW ⟨none, 200, ["data: [DONE]"], none⟩ =
      (ExecEffect.hung, [⟨"user", "hello"⟩], []) := by
  refine ⟨sendStream_traceOk, ?_, by decide⟩
  intro evs
  simp [postRequestStop, stopReceiverParked]

/-- The scan loop never looks at the in-stream `error` field of a chunk:
erasing it from every unmarshal result changes nothing. -/
theorem processLines_eraseErr (unmarshal : String → Option StreamResponse) :
    ∀ (lines : List String) (acc : String) (first : Bool) (evs : List Event),
      processLines (fun s => (unmarshal s).map eraseErr) lines acc first evs =
        processLines unmarshal lines acc first evs := by
  intro lines
  induction lines with
  | nil => intro acc first evs; rfl
  | cons line rest ih =>
      intro acc first evs
      simp only [processLines]
      by_cases hb : (line = "" || hasPref line ": " : Bool) = true
      · rw [if_pos hb, if_pos hb]
        exact ih acc first evs
      · rw [if_neg hb, if_neg hb]
        by_cases hd : hasPref line "data: " = true
        · rw [if_pos hd, if_pos hd]
          by_cases hdone : trimPref line "data: " = "[DONE]"
          · rw [if_pos hdone, if_pos hdone]
          · rw [if_neg hdone, if_neg hdone]
            rcases hm : unmarshal (trimPref line "data: ") with _ | streamResp
            · exact ih acc first evs
            · obtain ⟨rid, rob, rcr, rchs, rerr⟩ := streamResp
              simp only [Option.map, eraseErr]
              cases rchs with
              | nil => rfl
              | cons choice rest' =>
                  simp only []
                  by_cases hcc : choice.delta.content = ""
                  · rw [if_neg (fun hne => hne hcc),
                      if_neg (fun hne => hne hcc)]
                    exact ih acc first evs
                  · rw [if_pos hcc, if_pos hcc]
                    cases first with
                    | true =>
                        rw [if_pos rfl, if_pos rfl]
                        exact ih (acc ++ choice.delta.content) false
                          (evs ++ [Event.stop, Event.emit choice.delta.content])
                    | false =>
                        rw [if_neg (by simp), if_neg (by simp)]
                        exact ih (acc ++ choice.delta.content) false
                          (evs ++ [Event.emit choice.delta.content])
        · rw [if_neg hd, if_neg hd]
          exact ih acc first evs

/-- **C10.** The consumer ignores the in-stream `error` field entirely:
erasing the error from every decoded chunk leaves the whole transaction
(result and trace) unchanged, and a parseable chunk carrying an error object
together with an empty first-choice delta contributes nothing — the scan
continues as if the frame were not there, and the request does not fail. -/
theorem C10_error_field_ignored (unmarshal : String → Option StreamResponse)
    (inp : StreamInput) :
    sendStreamRequest (fun s => (unmarshal s).map eraseErr) inp =
      sendStreamRequest unmarshal inp ∧
    (∀ (line : String) (rest : List String) (acc : String) (first : Bool)
        (evs : List Event) (streamResp : StreamResponse) (e : Error)
        (choice : StreamChoice) (choices : List StreamChoice),
      hasPref line "data: " = true →
      trimPref line "data: " ≠ "[DONE]" →
      unmarshal (trimPref line "data: ") = some streamResp →
      streamResp.error = some e →
      streamResp.choices = choice :: choices →
      choice.delta.content = "" →
      processLines unmarshal (line :: rest) acc first evs =
        processLines unmarshal rest acc first evs) := by
  constructor
  · obtain ⟨te, st, lines, se⟩ := inp
    rcases te with _ | e
    · simp only [sendStreamRequest]
      by_cases hs : st ≠ 200
      · simp only [if_pos hs]
      · simp only [if_neg hs]
        rw [processLines_eraseErr unmarshal lines "" true []]
    · rfl
  · intro line rest acc first evs streamResp e choice choices hd hdone hm herr
      hch hcc
    simp only [processLines]
    rw [if_neg (by simp [hasPref_data_not_blank hd]), if_pos hd,
      if_neg hdone, hm]
    simp only []
    rw [hch]
    simp only []
    rw [if_neg (fun hne => hne hcc)]

/-- Witness for C10: a chunk carrying `error = {code, message}` and an empty
delta is a no-op for the scan, and erasing errors does not change the
concrete "Hi" transaction. -/
theorem C10_error_field_ignored_witness :
    sendStreamRequest
        (fun s => ((fun t => if t = "ERRCHUNK" then
            some ⟨"c9", "chat.completion.chunk", 0,
              [⟨⟨"assistant", ""⟩, "", 0⟩], some ⟨"429", "rate limited"⟩⟩
          else uW t) s).map eraseErr)
        reqHi =
      sendStreamRequest
        (fun t => if t = "ERRCHUNK" then
            some ⟨"c9", "chat.completion.chunk", 0,
              [⟨⟨"assistant", ""⟩, "", 0⟩], some ⟨"429", "rate limited"⟩⟩
          else uW t)
        reqHi ∧
    processLines
        (fun t => if t = "ERRCHUNK" then
            some ⟨"c9", "chat.completion.chunk", 0,
              [⟨⟨"assistant", ""⟩, "", 0⟩], some ⟨"429", "rate limited"⟩⟩
          else uW t)
        ["data: ERRCHUNK", "data: [DONE]"] "" true [] =
      processLines
        (fun t => if t = "ERRCHUNK" then
            some ⟨"c9", "chat.completion.chunk", 0,
              [⟨⟨"assistant", ""⟩, "", 0⟩], some ⟨"429", "rate limited"⟩⟩
          else uW t)
        ["data: [DONE]"] "" true [] := by
  have h := C10_error_field_ignored
    (fun t => if t = "ERRCHUNK" then
        some ⟨"c9", "chat.completion.chunk", 0,
          [⟨⟨"assistant", ""⟩, "", 0⟩], some ⟨"429", "rate limited"⟩⟩
      else uW t)
    reqHi
  exact ⟨h.1, h.2 "data: ERRCHUNK" ["data: [DONE]"] "" true []
    ⟨"c9", "chat.completion.chunk", 0, [⟨⟨"assistant", ""⟩, "", 0⟩],
      some ⟨"429", "rate limited"⟩⟩
    ⟨"429", "rate limited"⟩ ⟨⟨"assistant", ""⟩, "", 0⟩ []
    (by decide) (by decide) (by decide) rfl rfl rfl⟩

/-- Unfolding a successful turn: the input is conversational and the request
returns some reply. -/
theorem succeedsWith_elim {unmarshal : String → Option StreamResponse}
    {t : TurnInput} (h : succeedsWith unmarshal t = true) :
    isTurnText (trimSpace t.rawIn) = true ∧
      ∃ c evs, sendStreamRequest unmarshal t.req = (ReqResult.ok c, evs) := by
  unfold succeedsWith at h
  rw [Bool.and_eq_true] at h
  obtain ⟨h1, h2⟩ := h
  refine ⟨h1, ?_⟩
  rcases hsr : sendStreamRequest unmarshal t.req with ⟨res, evs⟩
  rw [hsr] at h2
  cases res with
  | ok c => exact ⟨c, evs, rfl⟩
  | transportError e => simp only [] at h2; exact Bool.noConfusion h2
  | statusError code => simp only [] at h2; exact Bool.noConfusion h2
  | scanError e => simp only [] at h2; exact Bool.noConfusion h2
  | emptyAnswer => simp only [] at h2; exact Bool.noConfusion h2
  | indexPanic => simp only [] at h2; exact Bool.noConfusion h2

/-- Appending a completed `(user, assistant)` pair makes the transcript end
in one. -/
theorem endsInPair_append (l : List Message) (inp c : String) :
    endsInPair (l ++ [⟨"user", inp⟩, ⟨"assistant", c⟩]) = true := by
  simp [endsInPair, List.reverse_append]

/-- **C3.** Over any sequence of successful conversational turns starting
from an empty transcript or one ending in a `(user, assistant)` pair: each
turn appends exactly one user message followed by exactly one assistant
message, the transcript length grows by exactly 2 per turn, and the
transcript always ends with a `(user, assistant)` pair (or stays empty when
there are no turns). -/
theorem C3_successful_turns (unmarshal : String → Option StreamResponse) :
    ∀ (ts : List TurnInput) (hist : List Message),
      (∀ t ∈ ts, succeedsWith unmarshal t = true) →
      (hist = [] ∨ endsInPair hist = true) →
      (runTurns unmarshal hist ts).length = hist.length + 2 * ts.length ∧
      (runTurns unmarshal hist ts = [] ∨
        endsInPair (runTurns unmarshal hist ts) = true) ∧
      (∀ t ∈ ts, ∀ h : List Message, ∃ c : String,
        (executor h t.rawIn unmarshal t.req).2.1 =
          h ++ [⟨"user", trimSpace t.rawIn⟩, ⟨"assistant", c⟩]) := by
  intro ts
  induction ts with
  | nil =>
      intro hist hall hh
      exact ⟨by simp [runTurns], by simpa [runTurns] using hh, by simp⟩
  | cons t ts' ih =>
      intro hist hall hh
      obtain ⟨ht, c, evs, hsr⟩ := succeedsWith_elim (hall t (by simp))
      have hex := executor_ok_eq hist t.rawIn unmarshal t.req c evs ht hsr
      have hrun : runTurns unmarshal hist (t :: ts') =
          runTurns unmarshal
            (hist ++ [⟨"user", trimSpace t.rawIn⟩, ⟨"assistant", c⟩]) ts' := by
        simp only [runTurns, hex]
      have hnext := ih
        (hist ++ [⟨"user", trimSpace t.rawIn⟩, ⟨"assistant", c⟩])
        (fun t' ht' => hall t' (List.mem_cons_of_mem _ ht'))
        (Or.inr (endsInPair_append hist (trimSpace t.rawIn) c))
      refine ⟨?_, ?_, ?_⟩
      · rw [hrun, hnext.1]
        simp only [List.length_append, List.length_cons, List.length_nil]
        omega
      · rw [hrun]
        exact hnext.2.1
      · intro t' ht' h
        rcases List.mem_cons.mp ht' with rfl | hmem
        · obtain ⟨ht2, c2, evs2, hsr2⟩ := succeedsWith_elim (hall t' (by simp))
          exact ⟨c2, by
            rw [executor_ok_eq h t'.rawIn unmarshal t'.req c2 evs2 ht2 hsr2]⟩
        · exact hnext.2.2 t' hmem h

/-- Witness for C3: two successful turns from the empty transcript give a
four-message transcript ending in a pair. -/
theorem C3_successful_turns_witness :
    (runTurns uW [] [⟨"hello", reqHi⟩, ⟨" again ", reqHi⟩]).length =
      ([] : List Message).length +
        2 * [(⟨"hello", reqHi⟩ : TurnInput), ⟨" again ", reqHi⟩].length ∧
    (runTurns uW [] [⟨"hello", reqHi⟩, ⟨" again ", reqHi⟩] = [] ∨
      endsInPair (runTurns uW [] [⟨"hello", reqHi⟩, ⟨" again ", reqHi⟩]) =
        true) := by
  have h := C3_successful_turns uW [⟨"hello", reqHi⟩, ⟨" again ", reqHi⟩] []
    (by decide) (Or.inl rfl)
  exact ⟨h.1, h.2.1⟩

end Doubao
